import Mathlib

/-
Verification of the accessor-context translation layer of RLMAccessor.hpp:
the boundary between a dynamically-typed object representation and a
typed, column-oriented storage engine.  The embedding models the dynamic
value (`id` in the source), the scalar coercion table, container wrapping,
and the object identity resolution of to_object_index and
to_existing_object_index.
-/

namespace RLMAccessor

/-- The dynamic value supplied by or returned to the caller (`id` in the
source): the null sentinel, scalars, ordered arrays, key/value mappings,
or an already-materialized persisted-object handle (type name and row
index).  String payloads are byte sequences. -/
inductive DynValue where
  | null
  | bool (b : Bool)
  | int (n : Int)
  | str (bytes : List Nat)
  | array (elems : List DynValue)
  | dict (pairs : List (String × DynValue))
  | objectRef (typeName : String) (row : Nat)

mutual

/-- Structural equality of two dynamic values, used by the engine-side
primary-key lookup. -/
def dvEq : DynValue → DynValue → Bool
  | .null, .null => true
  | .bool a, .bool b => a == b
  | .int a, .int b => a == b
  | .str a, .str b => a == b
  | .objectRef t i, .objectRef u j => t == u && i == j
  | .array xs, .array ys => dvEqList xs ys
  | .dict ps, .dict qs => dvEqPairs ps qs
  | _, _ => false

/-- Elementwise equality of dynamic-value lists. -/
def dvEqList : List DynValue → List DynValue → Bool
  | [], [] => true
  | x :: xs, y :: ys => dvEq x y && dvEqList xs ys
  | _, _ => false

/-- Elementwise equality of key/value pair lists. -/
def dvEqPairs : List (String × DynValue) → List (String × DynValue) → Bool
  | [], [] => true
  | (k, x) :: ps, (l, y) :: qs => k == l && dvEq x y && dvEqPairs ps qs
  | _, _ => false

end

/-- The abstract error kinds the accessor context can raise. -/
inductive RLMError where
  | UnsupportedType
  | TypeMismatch
  | MissingRequiredProperty
  | InvalidReference
deriving DecidableEq

/-- The type-erased Mixed scalar of the storage engine.  The binding never
produces one (`to_mixed` always fails), so it needs no inhabitants here. -/
inductive Mixed : Type

/-- `to_mixed(id) { throw std::logic_error("'Any' type is unsupported"); }`:
the conversion to the type-erased scalar unconditionally fails. -/
def to_mixed (_ : DynValue) : Except RLMError Mixed :=
  .error .UnsupportedType

/-- `null_value() { return NSNull.null; }`: the designated null sentinel. -/
def null_value : DynValue :=
  .null

/-- `is_null(id v) { return v == NSNull.null; }`: the test against the
null sentinel (NSNull is a singleton, so pointer comparison is equality
with the sentinel). -/
def is_null (v : DynValue) : Bool :=
  match v with
  | .null => true
  | _ => false

/-- `allow_missing(id v) { return [v isKindOfClass:[NSArray class]]; }`:
true exactly for array-shaped dynamic values. -/
def allow_missing (v : DynValue) : Bool :=
  match v with
  | .array _ => true
  | _ => false

/-- `deref(id v) const noexcept { return v; }`. -/
def deref (v : DynValue) : DynValue :=
  v

/-- Realm StringData: a sized byte sequence (data pointer plus size in the
source).  The size field delimits the string, so the bytes may contain
NUL; the engine null-terminates the buffer after the sized content. -/
structure StringData where
  bytes : List Nat
deriving DecidableEq

/-- `from_string(StringData v) { return @(v.data()); }`: the sized string
is boxed through its raw data pointer, i.e. with C-string semantics.  The
size field of v is not consulted: reading stops at the first NUL byte. -/
def from_string (v : StringData) : DynValue :=
  .str (v.bytes.takeWhile (fun b => b != 0))

/-- `to_string(id v) { return RLMStringDataWithNSString(v); }`: the
dynamic string value is converted back to engine StringData carrying the
full byte content with its length. -/
def to_string (v : DynValue) : StringData :=
  match v with
  | .str bs => ⟨bs⟩
  | _ => ⟨[]⟩

/-- `list_enumerate(id v, Func&& func) { for (id value in v) func(value); }`:
one forward pass over the dynamic array in its natural iteration order,
threading the effect of the visitor (modelled as explicit state). -/
def list_enumerate {α : Type} (v : List DynValue) (func : α → DynValue → α)
    (init : α) : α :=
  match v with
  | [] => init
  | x :: xs => list_enumerate xs func (func init x)

/-- Claim C4: for every input value, to_mixed fails with the
UnsupportedType error; it never returns a value. -/
theorem to_mixed_always_fails (v : DynValue) :
    to_mixed v = Except.error RLMError.UnsupportedType ∧
      ∀ m : Mixed, to_mixed v ≠ Except.ok m := by
  exact ⟨rfl, fun m => nomatch m⟩

/-- Claim C8: the value returned by null_value is the designated null
sentinel, and is_null holds exactly on that sentinel. -/
theorem is_null_null_value_spec :
    is_null null_value = true ∧
      ∀ v : DynValue, (is_null v = true ↔ v = null_value) := by
  refine ⟨rfl, fun v => ?_⟩
  cases v <;> simp [is_null, null_value]

/-- Claim C7: allow_missing is true exactly on array-shaped dynamic
values and false on every other value. -/
theorem allow_missing_iff_array (v : DynValue) :
    allow_missing v = true ↔ ∃ xs, v = DynValue.array xs := by
  cases v <;> simp [allow_missing]

/-- Claim C10: deref is the identity on dynamic values (and, being a
total function, never fails, matching its noexcept declaration). -/
theorem deref_identity (v : DynValue) :
    deref v = v :=
  rfl

/-- Claim C5: list_enumerate performs a single forward pass visiting each
element exactly once in the natural iteration order of the value: the
trace of visited elements appended to any starting accumulator is exactly
that accumulator followed by the elements in source order, so enumeration
order determines the resulting persisted order when writing into an
engine-native list. -/
theorem list_enumerate_visits_in_order (v acc : List DynValue) :
    list_enumerate v (fun l x => l ++ [x]) acc = acc ++ v := by
  induction v generalizing acc with
  | nil => simp [list_enumerate]
  | cons x xs ih => simp [list_enumerate, ih]

/-- Claim C3 (failing part): the string round-trip truncates at the first
NUL byte.  For the StringData "A NUL B" (bytes 65, 0, 66), boxing with
from_string and reading back with to_string yields just "A" (byte 65):
the bytes after the NUL are lost because from_string ignores the size
field of StringData and reads the data pointer as a C string. -/
theorem from_string_truncates_at_nul :
    to_string (from_string ⟨[65, 0, 66]⟩) = ⟨[65]⟩ ∧
      to_string (from_string ⟨[65, 0, 66]⟩) ≠ ⟨[65, 0, 66]⟩ := by
  constructor
  · rfl
  · decide

/-- A storage-engine collection handle: the four overloads of wrap in the
source take a table reference, a list, a lazily-evaluated result set or a
single linked object; each is an engine-native reference carrying an
identity into engine-side state. -/
inductive Handle where
  | table (ident : Nat)
  | list (ident : Nat)
  | results (ident : Nat)
  | object (ident : Nat)
deriving DecidableEq

/-- The engine-side identity a handle refers to. -/
def Handle.ident : Handle → Nat
  | .table i => i
  | .list i => i
  | .results i => i
  | .object i => i

/-- Engine-side state: for each collection identity, the content the
engine would produce when that collection is enumerated. -/
structure Engine where
  collections : List (List DynValue)

/-- The dynamic container returned by wrap: a lightweight proxy holding
only the wrapped handle; enumeration re-queries the engine lazily. -/
structure Proxy where
  handle : Handle
deriving DecidableEq

/-- Modelled from the spec: the bodies of the four wrap overloads
(RLMAccessor.hpp lines 46 to 49) are not part of the given source, only
their declarations.  Per the spec, wrapping returns a lightweight proxy
on demand without eagerly materializing the underlying data, so the
engine state is returned unchanged. -/
def wrap (e : Engine) (h : Handle) : Proxy × Engine :=
  (⟨h⟩, e)

/-- Enumerating a wrapped container queries the engine lazily through the
identity of the wrapped handle. -/
def enumerate (e : Engine) (p : Proxy) : List DynValue :=
  e.collections.getD p.handle.ident []

/-- `from_list(List v) { return wrap(std::move(v)); }`. -/
def from_list (e : Engine) (v : Handle) : Proxy × Engine :=
  wrap e v

/-- `from_table(TableRef v) { return wrap(std::move(v)); }`. -/
def from_table (e : Engine) (v : Handle) : Proxy × Engine :=
  wrap e v

/-- `from_results(Results v) { return wrap(std::move(v)); }`. -/
def from_results (e : Engine) (v : Handle) : Proxy × Engine :=
  wrap e v

/-- `from_object(Object v) { return wrap(v); }`. -/
def from_object (e : Engine) (v : Handle) : Proxy × Engine :=
  wrap e v

/-- Claim C6: wrap is idempotent.  Wrapping the same underlying handle
twice leaves the engine-side state exactly as it was (no duplicated
engine state), and the two resulting dynamic containers enumerate
identical content. -/
theorem wrap_idempotent (e : Engine) (h : Handle) :
    (wrap (wrap e h).2 h).2 = e ∧
      enumerate (wrap (wrap e h).2 h).2 (wrap e h).1 =
        enumerate (wrap (wrap e h).2 h).2 (wrap (wrap e h).2 h).1 :=
  ⟨rfl, rfl⟩

/-- Claim C9: each container conversion (from_list, from_table,
from_results, from_object) is exactly the corresponding application of
wrap to its argument. -/
theorem from_container_eq_wrap (e : Engine) (h : Handle) :
    from_list e h = wrap e h ∧ from_table e h = wrap e h ∧
      from_results e h = wrap e h ∧ from_object e h = wrap e h :=
  ⟨rfl, rfl, rfl, rfl⟩

/-- One property descriptor of an object schema: its name and whether it
is the primary key (schema metadata owned by the external schema
component). -/
structure Property where
  name : String
  isPrimary : Bool
deriving DecidableEq

/-- The schema of one object type: its type name and its property
descriptors in declared order. -/
structure ObjectSchema where
  typeName : String
  props : List Property
deriving DecidableEq

/-- A persisted row, as observable through the accessor: property name to
stored dynamic value. -/
abbrev Row := List (String × DynValue)

/-- The stored value of a property of a row (or of a default-value set). -/
def getProp : Row → String → Option DynValue
  | [], _ => none
  | (k, x) :: rest, name => if k = name then some x else getProp rest name

/-- Overwriting one property of a row in place. -/
def setProp : Row → String → DynValue → Row
  | [], name, x => [(name, x)]
  | (k, w) :: rest, name, x =>
      if k = name then (name, x) :: rest else (k, w) :: setProp rest name x

/-- Modelled from the spec: value_for_property (RLMAccessor.hpp line 58)
is only declared in the given source.  Per the spec edge-case policy,
array-positional input binds values to properties strictly by the
declared property order, and mapping-keyed input binds by name; any other
value supplies no property data. -/
def value_for_property (v : DynValue) (name : String) (propIndex : Nat) :
    Option DynValue :=
  match v with
  | .array xs => xs[propIndex]?
  | .dict pairs => getProp pairs name
  | _ => none

/-- The primary-key property of a schema with its index in declared
order: the first property whose primary-key flag is set. -/
def findPrimary : List Property → Nat → Option (Nat × Property)
  | [], _ => none
  | p :: ps, i => if p.isPrimary then some (i, p) else findPrimary ps (i + 1)

/-- Whether a row carries the given primary-key value. -/
def rowMatches (r : Row) (pkName : String) (pkVal : DynValue) : Bool :=
  match getProp r pkName with
  | some w => dvEq w pkVal
  | none => false

/-- The engine-side primary-key lookup: the index of the first row of the
table whose primary-key property equals the given value. -/
def findRowIdx : List Row → String → DynValue → Option Nat
  | [], _, _ => none
  | r :: rest, pkName, pkVal =>
      if rowMatches r pkName pkVal then some 0
      else (findRowIdx rest pkName pkVal).map (· + 1)

/-- The overwrite pass of the upsert path: walk the properties in
declared order and overwrite, on the existing row, exactly those
non-primary-key properties for which the dynamic value supplies data;
omitted properties leave the row untouched. -/
def updateSupplied (v : DynValue) : List Property → Nat → Row → Row
  | [], _, row => row
  | p :: ps, i, row =>
      updateSupplied v ps (i + 1)
        (if p.isPrimary then row
         else
           match value_for_property v p.name i with
           | some x => setProp row p.name x
           | none => row)

/-- The insert pass: build a fresh row seeding every supplied property,
falling back to the default-value set for an omitted property, and
failing with MissingRequiredProperty when a non-defaulted property is
absent from the input. -/
def buildNewRow (v : DynValue) (defaults : Row) :
    List Property → Nat → Except RLMError Row
  | [], _ => .ok []
  | p :: ps, i =>
      match value_for_property v p.name i with
      | some x => (buildNewRow v defaults ps (i + 1)).map (fun r => (p.name, x) :: r)
      | none =>
          if p.isPrimary then .error .MissingRequiredProperty
          else
            match getProp defaults p.name with
            | some d => (buildNewRow v defaults ps (i + 1)).map (fun r => (p.name, d) :: r)
            | none => .error .MissingRequiredProperty

/-- Modelled from the spec: to_object_index (RLMAccessor.hpp line 98) is
only declared in the given source; the resolution algorithm follows the
spec, section 4.3.  A value that already wraps a persisted row handle of
the correct object type resolves to the row index of the handle directly
and fails with TypeMismatch for a different object type.  Raw property
data (a mapping or a positional array) follows the upsert rule: with a
primary-keyed schema and update requested, an existing row with a
matching primary key is overwritten only on the supplied properties;
otherwise a new row is inserted with defaults applied.  Any other value
is not valid raw property data and fails with InvalidReference.  Nested
relationship recursion (spec step 3) is outside what the claims settled
here exercise and property values are stored as given. -/
def to_object_index (table : List Row) (defaults : Row)
    (schema : ObjectSchema) (v : DynValue) (update : Bool) :
    Except RLMError (Nat × List Row) :=
  match v with
  | .objectRef t i =>
      if t = schema.typeName then .ok (i, table) else .error .TypeMismatch
  | .dict _ | .array _ =>
      (match findPrimary schema.props 0, update with
       | some (pkIdx, pkProp), true =>
          (match value_for_property v pkProp.name pkIdx with
           | none => .error .MissingRequiredProperty
           | some pkVal =>
              match findRowIdx table pkProp.name pkVal with
              | some i =>
                  .ok (i, table.set i
                    (updateSupplied v schema.props 0 ((table[i]?).getD [])))
              | none =>
                  (buildNewRow v defaults schema.props 0).map
                    (fun r => (table.length, table ++ [r])))
       | _, _ =>
          (buildNewRow v defaults schema.props 0).map
            (fun r => (table.length, table ++ [r])))
  | _ => .error .InvalidReference

/-- Modelled from the spec: to_existing_object_index (RLMAccessor.hpp
line 97) is only declared in the given source.  A value wrapping a
persisted row handle of the correct object type resolves to its row
index directly; a handle of a different object type fails with
TypeMismatch; a value that is no persisted-object handle cannot resolve
to an existing object and fails with InvalidReference. -/
def to_existing_object_index (schema : ObjectSchema) (v : DynValue) :
    Except RLMError Nat :=
  match v with
  | .objectRef t i =>
      if t = schema.typeName then .ok i else .error .TypeMismatch
  | _ => .error .InvalidReference

theorem getProp_setProp_self (row : Row) (name : String) (x : DynValue) :
    getProp (setProp row name x) name = some x := by
  induction row with
  | nil => simp [setProp, getProp]
  | cons kv rest ih =>
      obtain ⟨k, w⟩ := kv
      by_cases h : k = name
      · simp [setProp, h, getProp]
      · simp [setProp, h, getProp, ih]

theorem getProp_setProp_ne (row : Row) (name m : String) (x : DynValue)
    (h : m ≠ name) :
    getProp (setProp row name x) m = getProp row m := by
  induction row with
  | nil => simp [setProp, getProp, Ne.symm h]
  | cons kv rest ih =>
      obtain ⟨k, w⟩ := kv
      by_cases hk : k = name
      · subst hk
        simp [setProp, getProp, Ne.symm h]
      · by_cases hkm : k = m <;> simp [setProp, hk, getProp, hkm, ih, h]

/-- Frame half of the overwrite pass: a property name that every
matching descriptor either marks primary or leaves unsupplied in the
dynamic value is read back unchanged from the updated row. -/
theorem updateSupplied_omitted (v : DynValue) (name : String) :
    ∀ (props : List Property) (start : Nat) (row : Row),
      (∀ j p, props[j]? = some p → p.name = name →
        (p.isPrimary = true ∨ value_for_property v name (start + j) = none)) →
      getProp (updateSupplied v props start row) name = getProp row name := by
  intro props
  induction props with
  | nil =>
      intro start row _
      simp [updateSupplied]
  | cons p ps ih =>
      intro start row h
      have htail : ∀ j q, ps[j]? = some q → q.name = name →
          (q.isPrimary = true ∨ value_for_property v name (start + 1 + j) = none) := by
        intro j q hq hname
        have h2 := h (j + 1) q (by simpa using hq) hname
        rwa [Nat.add_comm j 1, ← Nat.add_assoc] at h2
      simp only [updateSupplied]
      cases hp : p.isPrimary with
      | true =>
          rw [if_pos rfl]
          exact ih (start + 1) row htail
      | false =>
          rw [if_neg Bool.false_ne_true]
          cases hs : value_for_property v p.name start with
          | none => exact ih (start + 1) row htail
          | some x =>
              have hpn : p.name ≠ name := by
                intro he
                rcases h 0 p (by simp) he with hpr | hnone
                · rw [hp] at hpr
                  cases hpr
                · rw [Nat.add_zero, ← he] at hnone
                  rw [hnone] at hs
                  cases hs
              show getProp (updateSupplied v ps (start + 1)
                (setProp row p.name x)) name = getProp row name
              rw [ih (start + 1) (setProp row p.name x) htail]
              exact getProp_setProp_ne row p.name name x (Ne.symm hpn)

/-- Overwrite half of the overwrite pass: a non-primary-key property for
which the dynamic value supplies data, and whose name no other
descriptor shares, reads back exactly the supplied value. -/
theorem updateSupplied_written (v : DynValue) :
    ∀ (props : List Property) (start : Nat) (row : Row) (j : Nat)
      (p : Property) (x : DynValue),
      props[j]? = some p → p.isPrimary = false →
      value_for_property v p.name (start + j) = some x →
      (∀ k q, props[k]? = some q → k ≠ j → q.name ≠ p.name) →
      getProp (updateSupplied v props start row) p.name = some x := by
  intro props
  induction props with
  | nil =>
      intro start row j p x hj
      cases j <;> cases hj
  | cons p0 ps ih =>
      intro start row j p x hj hpk hsup huniq
      cases j with
      | zero =>
          have hp0 : p0 = p := by
            simpa using hj
          subst hp0
          rw [Nat.add_zero] at hsup
          simp only [updateSupplied, hpk]
          rw [if_neg Bool.false_ne_true, hsup]
          show getProp (updateSupplied v ps (start + 1)
            (setProp row p0.name x)) p0.name = some x
          rw [updateSupplied_omitted v p0.name ps (start + 1)
              (setProp row p0.name x) ?_]
          · exact getProp_setProp_self row p0.name x
          · intro k q hq hname
            exact absurd hname
              (huniq (k + 1) q (by simpa using hq) (Nat.succ_ne_zero k))
      | succ j2 =>
          have hj2 : ps[j2]? = some p := by
            simpa using hj
          have hsup2 : value_for_property v p.name (start + 1 + j2) = some x := by
            rwa [Nat.add_comm j2 1, ← Nat.add_assoc] at hsup
          have huniq2 : ∀ k q, ps[k]? = some q → k ≠ j2 → q.name ≠ p.name := by
            intro k q hq hne
            exact huniq (k + 1) q (by simpa using hq) (by omega)
          simp only [updateSupplied]
          exact ih (start + 1) _ j2 p x hj2 hpk hsup2 huniq2

/-- With no duplicate property names in a schema, descriptors at
different positions have different names. -/
theorem nodup_names_ne {props : List Property}
    (h : (props.map Property.name).Nodup) :
    ∀ (k j : Nat) (p q : Property), props[k]? = some p → props[j]? = some q →
      k ≠ j → p.name ≠ q.name := by
  intro k j p q hk hj hne he
  have hk2 : (props.map Property.name)[k]? = some p.name := by
    simp [hk]
  have hj2 : (props.map Property.name)[j]? = some q.name := by
    simp [hj]
  rw [he] at hk2
  have hlen : k < (props.map Property.name).length := by
    by_contra hcon
    push_neg at hcon
    rw [List.getElem?_eq_none hcon] at hk2
    cases hk2
  exact hne (List.getElem?_inj hlen h (by rw [hk2, hj2]))

/-- Claim C1: upsert against a primary-keyed schema when a row matching
the primary key already exists.  to_object_index returns the index of
that row with exactly the supplied properties overwritten on it: every
property the dynamic value omits reads back from the updated row with
the value the old row held (the frame — for the spec example, the
omitted dog property stays untouched rather than being nulled), and
every supplied non-primary-key property reads back the supplied value. -/
theorem to_object_index_upsert_frame (table : List Row) (defaults : Row)
    (schema : ObjectSchema) (pairs : List (String × DynValue))
    (pkIdx : Nat) (pkProp : Property) (pkVal : DynValue) (i : Nat)
    (oldRow : Row)
    (hNodup : (schema.props.map Property.name).Nodup)
    (hpk : findPrimary schema.props 0 = some (pkIdx, pkProp))
    (hval : value_for_property (DynValue.dict pairs) pkProp.name pkIdx
      = some pkVal)
    (hfind : findRowIdx table pkProp.name pkVal = some i)
    (hrow : table[i]? = some oldRow) :
    to_object_index table defaults schema (DynValue.dict pairs) true
        = Except.ok (i, table.set i
            (updateSupplied (DynValue.dict pairs) schema.props 0 oldRow)) ∧
      (∀ j (hj : j < schema.props.length),
        value_for_property (DynValue.dict pairs) (schema.props[j]).name j
            = none →
          getProp (updateSupplied (DynValue.dict pairs) schema.props 0 oldRow)
              (schema.props[j]).name
            = getProp oldRow (schema.props[j]).name) ∧
      (∀ j (hj : j < schema.props.length), ∀ x,
        (schema.props[j]).isPrimary = false →
        value_for_property (DynValue.dict pairs) (schema.props[j]).name j
            = some x →
          getProp (updateSupplied (DynValue.dict pairs) schema.props 0 oldRow)
              (schema.props[j]).name = some x) := by
  refine ⟨?_, ?_, ?_⟩
  · simp only [to_object_index, hpk, hval, hfind, hrow, Option.getD_some]
  · intro j hj hnone
    apply updateSupplied_omitted
    intro k p hk hname
    by_cases hkj : k = j
    · subst hkj
      right
      rw [Nat.zero_add]
      exact hnone
    · exact absurd hname
        (nodup_names_ne hNodup k j p (schema.props[j]) hk
          (List.getElem?_eq_getElem hj) hkj)
  · intro j hj x hprim hsup
    apply updateSupplied_written (DynValue.dict pairs) schema.props 0 oldRow j
      (schema.props[j]) x (List.getElem?_eq_getElem hj) hprim
    · rwa [Nat.zero_add]
    · intro k q hk hkj
      exact nodup_names_ne hNodup k j q (schema.props[j]) hk
        (List.getElem?_eq_getElem hj) hkj

/-- The Person schema of the spec example: a primary-key id, a name and
a dog relationship property. -/
def personSchema : ObjectSchema :=
  ⟨"Person", [⟨"id", true⟩, ⟨"name", false⟩, ⟨"dog", false⟩]⟩

/-- The existing row of the spec example: id 1, name "Ann" (bytes), dog
null. -/
def annRow : Row :=
  [("id", DynValue.int 1), ("name", DynValue.str [65, 110, 110]),
   ("dog", DynValue.null)]

/-- The dynamic input of the spec example: id 1 and name "Bob" (bytes),
dog omitted. -/
def bobPairs : List (String × DynValue) :=
  [("id", DynValue.int 1), ("name", DynValue.str [66, 111, 98])]

/-- The expected row after the upsert of the spec example: name
overwritten, dog untouched. -/
def bobRow : Row :=
  [("id", DynValue.int 1), ("name", DynValue.str [66, 111, 98]),
   ("dog", DynValue.null)]

/-- Claim C1 witness: the spec example at concrete input.  Updating the
existing row id 1, name "Ann", dog null with the value id 1, name "Bob"
under update true mutates the row to id 1, name "Bob", dog null: the
omitted dog property reads back null (untouched, not nulled) and the
supplied name property reads back "Bob". -/
theorem upsert_example_bob :
    to_object_index [annRow] [] personSchema (DynValue.dict bobPairs) true
        = Except.ok (0, [bobRow]) ∧
      getProp (updateSupplied (DynValue.dict bobPairs) personSchema.props 0
          annRow) "dog"
        = some DynValue.null ∧
      getProp (updateSupplied (DynValue.dict bobPairs) personSchema.props 0
          annRow) "name"
        = some (DynValue.str [66, 111, 98]) := by
  have h := to_object_index_upsert_frame [annRow] [] personSchema bobPairs
    0 ⟨"id", true⟩ (DynValue.int 1) 0 annRow
    (by decide)
    rfl
    rfl
    (by simp [findRowIdx, rowMatches, annRow, getProp, dvEq])
    rfl
  refine ⟨?_, ?_, ?_⟩
  · rw [h.1]
    rfl
  · exact (h.2.1 2 (by decide) rfl).trans rfl
  · exact h.2.2 1 (by decide) (DynValue.str [66, 111, 98]) rfl rfl

/-- Claim C2: a dynamic value that already wraps a persisted row handle
resolves directly to the row index carried by the handle when the object
type of the handle matches the target type (and the table is left
unchanged), and fails with TypeMismatch when the handle belongs to a
different object type than the target schema expects; to_object_index
and to_existing_object_index both behave so. -/
theorem object_handle_resolution (table : List Row) (defaults : Row)
    (schema : ObjectSchema) (t : String) (i : Nat) (update : Bool) :
    to_object_index table defaults schema (DynValue.objectRef t i) update
        = (if t = schema.typeName then Except.ok (i, table)
           else Except.error RLMError.TypeMismatch) ∧
      to_existing_object_index schema (DynValue.objectRef t i)
        = (if t = schema.typeName then Except.ok i
           else Except.error RLMError.TypeMismatch) := by
  constructor
  · simp only [to_object_index]
  · simp only [to_existing_object_index]

end RLMAccessor
